import Mathlib

/-!
Verification development for the request-intent and variant-resolution core
a static file serving layer (src/input.rs).

The embedding models the single source file src/input.rs.  The external
collaborator modules (accept-encoding parser, range parser, etag, output
builder) are not under src/, so they appear here as an abstract interface
record (`Collab`) plus, where a claim depends on their documented behavior,
definitions and hypotheses modelled from the spec.
-/

namespace TkHttpFile

/-- Raw header values and filesystem paths are byte strings; we model bytes
as natural numbers. -/
abbrev Bytes := List Nat

/-- The `Mode` enumeration from src/input.rs: classification outcome of a
request. -/
inductive Mode where
  | head
  | get
  | invalidMethod
  | invalidRange
deriving DecidableEq, Repr

/-- Rendering of `Mode` matching the derived Debug implementation in Rust,
as printed by the println call in file_at. -/
def Mode.reprString : Mode → String
  | Mode.head => "Head"
  | Mode.get => "Get"
  | Mode.invalidMethod => "InvalidMethod"
  | Mode.invalidRange => "InvalidRange"

/-- ASCII lowercase of a character, as used by eq_ignore_ascii_case in Rust:
characters A..Z are shifted to a..z, everything else kept. -/
def asciiLower (c : Char) : Char :=
  if 'A' ≤ c ∧ c ≤ 'Z' then Char.ofNat (c.toNat + 32) else c

/-- Case-insensitive ASCII string comparison, modelling
str::eq_ignore_ascii_case from the Rust standard library. -/
def eqIgnoreAsciiCase (a b : String) : Bool :=
  a.data.map asciiLower == b.data.map asciiLower

deriving instance DecidableEq for Except

/-- The `Input` structure from src/input.rs: classification outcome,
negotiated encoding preference, optional range, and conditional-request
slots.  The collaborator-owned types are abstract: `AE` is AcceptEncoding,
`R` is Range, `T` is SystemTime, `Et` is Etag.  The if_range field carries
Result of SystemTime or Etag, modelled as `Except Et T` (ok = time,
error = etag). -/
structure Input (AE R T Et : Type) where
  mode : Mode
  accept_encoding : AE
  range : Option R
  if_range : Option (Except Et T)
  if_match : List Et
  if_none : List Et
  if_unmodified : Option T
  if_modified : Option T
deriving DecidableEq

/-- Modelled from the spec: the interface of the collaborator modules that
are not under src/ (the accept-encoding parser crate/module and the range
parser module).  Builders accumulate the raw header values fed to them in
order, so a builder state is the list of values; `aeDone` and `rangeDone`
are the respective done() calls, `aeIdentity` is AcceptEncoding::identity(),
`aeIter` is AcceptEncoding::iter() exposing the ordered encoding
preference, and `suffix` is the filename suffix of an encoding. -/
structure Collab (AE R E : Type) where
  aeIdentity : AE
  aeDone : List Bytes → AE
  rangeDone : List Bytes → Except Unit (Option R)
  aeIter : AE → List E
  suffix : E → Bytes

variable {AE R T Et E F M : Type}

/-- The default-payload Input built at the two early returns in
from_headers: the given terminal mode, identity-only encoding, and every
other field at its empty default. -/
def mkTerminal (c : Collab AE R E) (m : Mode) : Input AE R T Et :=
  ⟨m, c.aeIdentity, none, none, [], [], none, none⟩

/-- The method match at the top of from_headers: HEAD and GET map to their
modes, anything else to none (the early invalid-method return). -/
def classify (method : String) : Option Mode :=
  if method = "HEAD" then some Mode.head
  else if method = "GET" then some Mode.get
  else none

/-- The header loop of from_headers: fold over the header pairs, feeding
values whose name matches accept-encoding case-insensitively to the
accept-encoding builder state, values whose name matches range to the range
builder state, and ignoring the rest.  Result: the two accumulated builder
states. -/
def aggregateStep (st : List Bytes × List Bytes) (h : String × Bytes) :
    List Bytes × List Bytes :=
  if eqIgnoreAsciiCase h.1 "accept-encoding" then (st.1 ++ [h.2], st.2)
  else if eqIgnoreAsciiCase h.1 "range" then (st.1, st.2 ++ [h.2])
  else st

def aggregate (headers : List (String × Bytes)) : List Bytes × List Bytes :=
  headers.foldl aggregateStep ([], [])

/-- Input::from_headers from src/input.rs: classify the method (early
invalid-method return before any header is touched), aggregate the headers
into the two builder states, finalize the range (early invalid-range return
discarding the negotiated encoding), then build the successful Input. -/
def Input.from_headers (c : Collab AE R E) (method : String)
    (headers : List (String × Bytes)) : Input AE R T Et :=
  match classify method with
  | none => mkTerminal c Mode.invalidMethod
  | some mode =>
    match c.rangeDone (aggregate headers).2 with
    | Except.error _ => mkTerminal c Mode.invalidRange
    | Except.ok range =>
      ⟨mode, c.aeDone (aggregate headers).1, range, none, [], [], none, none⟩

/-- Error kinds distinguished by file_at: it only tests whether the kind is
NotFound, so we keep NotFound and two representative other kinds. -/
inductive ErrorKind where
  | notFound
  | permissionDenied
  | otherKind
deriving DecidableEq, Repr

/-- An I/O error: its kind plus a message used in the log line. -/
structure FsError where
  kind : ErrorKind
  msg : String
deriving DecidableEq, Repr

/-- A filesystem state, modelling the blocking calls made by file_at:
File::open on a byte path and metadata on an open file. -/
structure Fs (F M : Type) where
  openFile : Bytes → Except FsError F
  metadata : F → Except FsError M

/-- File::open(path).and_then(metadata) as chained in file_at: open the
path, then read the metadata of the opened file, propagating the first
error. -/
def Fs.openWithMeta (fs : Fs F M) (p : Bytes) : Except FsError (F × M) :=
  match fs.openFile p with
  | Except.error e => Except.error e
  | Except.ok f =>
    match fs.metadata f with
    | Except.error e => Except.error e
    | Except.ok m => Except.ok (f, m)

/-- Modelled from the spec: the Output object built by Output::from_file,
which lives outside src/.  The spec describes it as a constructor taking
the Intent, the matched encoding, the metadata and the open handle. -/
structure Output (AE R T Et E F M : Type) where
  input : Input AE R T Et
  encoding : E
  meta : M
  file : F

/-- The observable trace of one file_at call: the stdout lines written by
println, the sequence of paths probed by File::open in order, the log lines
emitted for non-NotFound errors (path and error, in order), and the
returned value. -/
structure FileAtTrace (AE R T Et E F M : Type) where
  stdout : List String
  probed : List Bytes
  log : List (Bytes × FsError)
  result : Option (Output AE R T Et E F M)

/-- The probe loop of file_at: for each candidate encoding in order, form
the probe path by appending the suffix of the encoding to the base path,
attempt open plus metadata; on success return the Output at once, on a
NotFound error continue silently, and on any other error log one line and
continue.  Returns (probed paths, log lines, result). -/
def probeLoop (c : Collab AE R E) (fs : Fs F M) (self : Input AE R T Et)
    (path : Bytes) :
    List E → List Bytes × List (Bytes × FsError) × Option (Output AE R T Et E F M)
  | [] => ([], [], none)
  | enc :: rest =>
    let p := path ++ c.suffix enc
    match fs.openWithMeta p with
    | Except.ok fm => ([p], [], some ⟨self, enc, fm.2, fm.1⟩)
    | Except.error e =>
      let r := probeLoop c fs self path rest
      (p :: r.1,
       (if e.kind ≠ ErrorKind.notFound then [(p, e)] else []) ++ r.2.1,
       r.2.2)

/-- Input::file_at from src/input.rs: print the mode, then run the probe
loop over the encodings of the accept_encoding field of the intent. -/
def Input.file_at (c : Collab AE R E) (fs : Fs F M) (self : Input AE R T Et)
    (path : Bytes) : FileAtTrace AE R T Et E F M :=
  let r := probeLoop c fs self path (c.aeIter self.accept_encoding)
  ⟨["Mode " ++ self.mode.reprString], r.1, r.2.1, r.2.2⟩

/-! Toy instantiation of the abstract collaborator interface, used only to
evaluate the theorems at concrete inputs. -/

/-- A toy encoding type for concrete witnesses: brotli, gzip and identity. -/
inductive ToyEnc where
  | br
  | gzip
  | identity
deriving DecidableEq, Repr

/-- Toy filename suffixes: empty for identity, the bytes of the dot
extensions for the compressed forms. -/
def toySuffix : ToyEnc → Bytes
  | ToyEnc.br => [46, 98, 114]
  | ToyEnc.gzip => [46, 103, 122]
  | ToyEnc.identity => []

/-- A toy collaborator record: the encoding preference is a plain list of
toy encodings iterated as is; the toy range parser returns no range for an
empty state, fails on the single raw value [48], and returns a range
otherwise. -/
def toyCollab : Collab (List ToyEnc) Nat ToyEnc :=
  ⟨[ToyEnc.identity],
   fun hs => if hs.isEmpty then [ToyEnc.identity]
             else [ToyEnc.br, ToyEnc.gzip, ToyEnc.identity],
   fun hs => if hs.isEmpty then Except.ok none
             else if hs = [[48]] then Except.error ()
             else Except.ok (some 7),
   fun ae => ae,
   toySuffix⟩

/-- Base path used by the toy filesystem. -/
def toyBase : Bytes := [97]

/-- A toy filesystem: the gzip variant and the identity variant of the base
path exist (a handle is the path itself, metadata is its length); every
other path is NotFound. -/
def toyFs : Fs Bytes Nat :=
  ⟨fun p => if p = toyBase ++ [46, 103, 122] ∨ p = toyBase then Except.ok p
            else Except.error ⟨ErrorKind.notFound, "nf"⟩,
   fun f => Except.ok f.length⟩

/-- A toy filesystem where the brotli variant of the base path is
permission denied and every other path is NotFound. -/
def toyFsDenied : Fs Bytes Nat :=
  ⟨fun p => if p = toyBase ++ [46, 98, 114] then
              Except.error ⟨ErrorKind.permissionDenied, "pd"⟩
            else Except.error ⟨ErrorKind.notFound, "nf"⟩,
   fun f => Except.ok f.length⟩

/-- A toy Get intent with preference brotli, gzip, identity. -/
def toyIntent : Input (List ToyEnc) Nat Nat Nat :=
  ⟨Mode.get, [ToyEnc.br, ToyEnc.gzip, ToyEnc.identity], none, none, [], [],
   none, none⟩

/-- A toy Get intent with preference brotli then gzip. -/
def toyIntentBg : Input (List ToyEnc) Nat Nat Nat :=
  ⟨Mode.get, [ToyEnc.br, ToyEnc.gzip], none, none, [], [], none, none⟩

/-- A toy terminal InvalidMethod intent carrying the same encoding
preference as toyIntent. -/
def toyIntentInvalid : Input (List ToyEnc) Nat Nat Nat :=
  ⟨Mode.invalidMethod, [ToyEnc.br, ToyEnc.gzip, ToyEnc.identity], none,
   none, [], [], none, none⟩

/-- The log line produced (or not) by one probe: nothing on success or on a
NotFound failure, one (path, error) line on any other failure. -/
def logEntry (c : Collab AE R E) (fs : Fs F M) (path : Bytes) (e : E) :
    Option (Bytes × FsError) :=
  match fs.openWithMeta (path ++ c.suffix e) with
  | Except.ok _ => none
  | Except.error err =>
    if err.kind = ErrorKind.notFound then none
    else some (path ++ c.suffix e, err)

/-- The selection made by the resolver, stripped of the intent it embeds in
the Output: the matched encoding, the open file and its metadata. -/
def selection (o : Output AE R T Et E F M) : E × F × M :=
  (o.encoding, o.file, o.meta)

/-! Basic lemmas about classification and construction. -/

theorem classify_other {m : String} (h1 : m ≠ "HEAD") (h2 : m ≠ "GET") :
    classify m = none := by
  simp [classify, h1, h2]

theorem from_headers_invalid_method (c : Collab AE R E) {m : String}
    (h1 : m ≠ "HEAD") (h2 : m ≠ "GET") (hs : List (String × Bytes)) :
    (Input.from_headers c m hs : Input AE R T Et) =
      mkTerminal c Mode.invalidMethod := by
  unfold Input.from_headers
  rw [classify_other h1 h2]

theorem from_headers_valid (c : Collab AE R E) {m : String} {mode : Mode}
    (hcl : classify m = some mode) (hs : List (String × Bytes)) :
    (Input.from_headers c m hs : Input AE R T Et) =
      match c.rangeDone (aggregate hs).2 with
      | Except.error _ => mkTerminal c Mode.invalidRange
      | Except.ok range =>
        ⟨mode, c.aeDone (aggregate hs).1, range, none, [], [], none, none⟩ := by
  unfold Input.from_headers
  rw [hcl]

/-- C1: from_headers maps exactly "HEAD" to the Head outcome and exactly
"GET" to the Get outcome, case-sensitively: a Head (resp. Get) outcome can
only arise from the method string "HEAD" (resp. "GET"), and those methods
do produce it whenever range finalization succeeds.  Any other method
string yields the terminal invalid-method Input, whose fields are all at
their defaults (identity-only encoding, absent range, empty conditionals)
and which is a constant independent of the header list: the header iterator
is never consulted. -/
theorem c1_method_classification (c : Collab AE R E) (m : String)
    (hs : List (String × Bytes)) :
    ((Input.from_headers c m hs : Input AE R T Et).mode = Mode.head → m = "HEAD") ∧
    ((Input.from_headers c m hs : Input AE R T Et).mode = Mode.get → m = "GET") ∧
    (m = "HEAD" → ∀ r, c.rangeDone (aggregate hs).2 = Except.ok r →
      (Input.from_headers c m hs : Input AE R T Et).mode = Mode.head) ∧
    (m = "GET" → ∀ r, c.rangeDone (aggregate hs).2 = Except.ok r →
      (Input.from_headers c m hs : Input AE R T Et).mode = Mode.get) ∧
    (m ≠ "HEAD" → m ≠ "GET" →
      (Input.from_headers c m hs : Input AE R T Et) =
        mkTerminal c Mode.invalidMethod) := by
  by_cases hH : m = "HEAD"
  · subst hH
    have hcl : classify "HEAD" = some Mode.head := rfl
    rw [from_headers_valid c hcl hs]
    cases hr : c.rangeDone (aggregate hs).2 with
    | error e =>
      refine ⟨fun h => rfl, fun h => ?_, fun _ r hok => ?_, fun hg => ?_,
              fun h _ => absurd rfl h⟩
      · simp [mkTerminal] at h
      · cases hok
      · exact absurd hg (by decide)
    | ok r0 =>
      refine ⟨fun h => rfl, fun h => ?_, fun _ r hok => rfl, fun hg => ?_,
              fun h _ => absurd rfl h⟩
      · simp at h
      · exact absurd hg (by decide)
  · by_cases hG : m = "GET"
    · subst hG
      have hcl : classify "GET" = some Mode.get := rfl
      rw [from_headers_valid c hcl hs]
      cases hr : c.rangeDone (aggregate hs).2 with
      | error e =>
        refine ⟨fun h => ?_, fun h => rfl, fun hh => ?_, fun _ r hok => ?_,
                fun _ h => absurd rfl h⟩
        · simp [mkTerminal] at h
        · exact absurd hh (by decide)
        · cases hok
      | ok r0 =>
        refine ⟨fun h => ?_, fun h => rfl, fun hh => ?_, fun _ r hok => rfl,
                fun _ h => absurd rfl h⟩
        · simp at h
        · exact absurd hh (by decide)
    · rw [from_headers_invalid_method c hH hG hs]
      exact ⟨fun h => by simp [mkTerminal] at h, fun h => by simp [mkTerminal] at h,
             fun h => absurd h hH, fun h => absurd h hG, fun _ _ => rfl⟩

/-- Evaluation of C1 at concrete inputs: the method "POST" with a nonempty
header list yields the terminal invalid-method Input. -/
theorem c1_witness :
    (Input.from_headers toyCollab "POST" [("Range", [48])]
        : Input (List ToyEnc) Nat Nat Nat) =
      mkTerminal toyCollab Mode.invalidMethod :=
  (c1_method_classification toyCollab "POST" [("Range", [48])]).2.2.2.2
    (by decide) (by decide)

/-- C2: for a valid method (HEAD or GET), when range finalization fails the
constructed Input is exactly the terminal invalid-range Input: outcome
InvalidRange, encoding preference reset to the identity-only default (any
negotiated accept-encoding state is discarded), absent range, and all
conditional fields at their empty defaults. -/
theorem c2_invalid_range (c : Collab AE R E) (m : String)
    (hs : List (String × Bytes)) (hm : m = "HEAD" ∨ m = "GET")
    (hr : c.rangeDone (aggregate hs).2 = Except.error ()) :
    (Input.from_headers c m hs : Input AE R T Et) =
      mkTerminal c Mode.invalidRange := by
  have hcl : ∃ mode, classify m = some mode := by
    cases hm with
    | inl h => exact ⟨Mode.head, by rw [h]; rfl⟩
    | inr h => exact ⟨Mode.get, by rw [h]; rfl⟩
  obtain ⟨mode, hcl⟩ := hcl
  rw [from_headers_valid c hcl hs, hr]

/-- Evaluation of C2 at a concrete input: a GET request carrying a valid
non-default Accept-Encoding header and a malformed Range header (raw value
[48]) yields the terminal invalid-range Input with identity-only
encoding. -/
theorem c2_witness :
    toyCollab.rangeDone
        (aggregate [("Accept-Encoding", [1]), ("Range", [48])]).2 =
      Except.error () ∧
    (Input.from_headers toyCollab "GET" [("Accept-Encoding", [1]), ("Range", [48])]
        : Input (List ToyEnc) Nat Nat Nat) =
      mkTerminal toyCollab Mode.invalidRange :=
  ⟨by decide,
   c2_invalid_range toyCollab "GET" [("Accept-Encoding", [1]), ("Range", [48])]
     (Or.inr rfl) (by decide)⟩

/-- C7: on every construction path (invalid method, invalid range, success)
the conditional-predicate fields of the constructed Input are at their
empty defaults: if_range, if_unmodified and if_modified are absent and
if_match and if_none are empty lists, for every method and every header
list. -/
theorem c7_conditionals_empty (c : Collab AE R E) (m : String)
    (hs : List (String × Bytes)) :
    (Input.from_headers c m hs : Input AE R T Et).if_range = none ∧
    (Input.from_headers c m hs : Input AE R T Et).if_match = [] ∧
    (Input.from_headers c m hs : Input AE R T Et).if_none = [] ∧
    (Input.from_headers c m hs : Input AE R T Et).if_unmodified = none ∧
    (Input.from_headers c m hs : Input AE R T Et).if_modified = none := by
  unfold Input.from_headers
  cases classify m with
  | none => exact ⟨rfl, rfl, rfl, rfl, rfl⟩
  | some mode =>
    cases c.rangeDone (aggregate hs).2 with
    | error e => exact ⟨rfl, rfl, rfl, rfl, rfl⟩
    | ok range => exact ⟨rfl, rfl, rfl, rfl, rfl⟩

/-- C8: Intent construction is deterministic: two calls of from_headers on
equal method strings and equal header lists return field-for-field equal
Inputs; the embedding is a pure function of its arguments with no other
state. -/
theorem c8_deterministic (c : Collab AE R E) (m1 m2 : String)
    (h1 h2 : List (String × Bytes)) (hm : m1 = m2) (hh : h1 = h2) :
    (Input.from_headers c m1 h1 : Input AE R T Et) =
      Input.from_headers c m2 h2 := by
  rw [hm, hh]

/-- Evaluation of C8 at a concrete input: two constructions from the same
GET request agree. -/
theorem c8_witness :
    (Input.from_headers toyCollab "GET" [("Range", [50])]
        : Input (List ToyEnc) Nat Nat Nat) =
      Input.from_headers toyCollab "GET" [("Range", [50])] :=
  c8_deterministic toyCollab "GET" "GET" [("Range", [50])] [("Range", [50])]
    rfl rfl

/-- C10: every file_at call, whatever its outcome, writes exactly one line
to standard output, containing the mode of the intent (the println call at
the top of the function). -/
theorem c10_stdout_line (c : Collab AE R E) (fs : Fs F M)
    (self : Input AE R T Et) (path : Bytes) :
    (Input.file_at c fs self path).stdout =
      ["Mode " ++ self.mode.reprString] := rfl

/-! Aggregation characterization. -/

theorem aeMatch_not_range {n : String}
    (h : eqIgnoreAsciiCase n "accept-encoding" = true) :
    eqIgnoreAsciiCase n "range" = false := by
  unfold eqIgnoreAsciiCase at h ⊢
  have h1 : n.data.map asciiLower = "accept-encoding".data.map asciiLower :=
    beq_iff_eq.mp h
  rw [beq_eq_false_iff_ne, h1]
  decide

theorem aggregate_foldl (hs : List (String × Bytes))
    (acc : List Bytes × List Bytes) :
    hs.foldl aggregateStep acc =
      (acc.1 ++ (hs.filter
          (fun h => eqIgnoreAsciiCase h.1 "accept-encoding")).map Prod.snd,
       acc.2 ++ (hs.filter
          (fun h => eqIgnoreAsciiCase h.1 "range")).map Prod.snd) := by
  induction hs generalizing acc with
  | nil => simp
  | cons h t ih =>
    simp only [List.foldl_cons, List.filter_cons]
    by_cases h1 : eqIgnoreAsciiCase h.1 "accept-encoding" = true
    · have h2 := aeMatch_not_range h1
      rw [ih]
      simp [aggregateStep, h1, h2]
    · simp only [Bool.not_eq_true] at h1
      by_cases h2 : eqIgnoreAsciiCase h.1 "range" = true
      · rw [ih]
        simp [aggregateStep, h1, h2]
      · simp only [Bool.not_eq_true] at h2
        rw [ih]
        simp [aggregateStep, h1, h2]

/-- C5: the header pass of from_headers routes exactly the headers whose
name matches accept-encoding case-insensitively into the accept-encoding
builder state and exactly those whose name matches range into the range
builder state, feeding the raw byte values and preserving per name the
order in which repeated headers occur; headers matching neither are
ignored without error. -/
theorem c5_aggregate_routes (hs : List (String × Bytes)) :
    aggregate hs =
      ((hs.filter
          (fun h => eqIgnoreAsciiCase h.1 "accept-encoding")).map Prod.snd,
       (hs.filter
          (fun h => eqIgnoreAsciiCase h.1 "range")).map Prod.snd) := by
  unfold aggregate
  rw [aggregate_foldl]
  simp

/-- C6: with no accept-encoding header in the header list, a valid method
and a range that finalizes successfully, the constructed Input carries the
identity-only default encoding preference, and the resolver consequently
probes exactly the unsuffixed base path.  The hypotheses hdone, hiter and
hsuffix state the documented contract of the external accept-encoding
parser (done on an empty state is the identity-only default, which
iterates as the single identity encoding whose suffix is empty). -/
theorem c6_identity_default (c : Collab AE R E) (identEnc : E) (m : String)
    (hs : List (String × Bytes)) (fs : Fs F M) (path : Bytes) (r : Option R)
    (hm : m = "HEAD" ∨ m = "GET")
    (hae : ∀ h ∈ hs, eqIgnoreAsciiCase h.1 "accept-encoding" = false)
    (hr : c.rangeDone (aggregate hs).2 = Except.ok r)
    (hdone : c.aeDone [] = c.aeIdentity)
    (hiter : c.aeIter c.aeIdentity = [identEnc])
    (hsuffix : c.suffix identEnc = []) :
    (Input.from_headers c m hs : Input AE R T Et).accept_encoding =
        c.aeIdentity ∧
    (Input.file_at c fs (Input.from_headers c m hs : Input AE R T Et)
        path).probed = [path] := by
  have hagg1 : (aggregate hs).1 = [] := by
    unfold aggregate
    rw [aggregate_foldl]
    simp only [List.nil_append]
    rw [List.map_eq_nil_iff, List.filter_eq_nil_iff]
    intro a ha
    simp [hae a ha]
  have hcl : ∃ mode, classify m = some mode := by
    cases hm with
    | inl h => exact ⟨Mode.head, by rw [h]; rfl⟩
    | inr h => exact ⟨Mode.get, by rw [h]; rfl⟩
  obtain ⟨mode, hcl⟩ := hcl
  have hin : (Input.from_headers c m hs : Input AE R T Et).accept_encoding =
      c.aeIdentity := by
    rw [from_headers_valid c hcl hs, hr]
    simp only []
    rw [hagg1, hdone]
  refine ⟨hin, ?_⟩
  show (Input.file_at c fs (Input.from_headers c m hs) path).probed = [path]
  unfold Input.file_at
  simp only []
  rw [hin, hiter]
  simp only [probeLoop, hsuffix, List.append_nil]
  cases fs.openWithMeta path <;> rfl

/-- Evaluation of C6 at a concrete input: a GET request whose only header
name matches neither interesting header yields the identity-only encoding
preference, and the resolver probes exactly the base path. -/
theorem c6_witness :
    toyCollab.rangeDone (aggregate [("X-Other", [9])]).2 = Except.ok none ∧
    (Input.from_headers toyCollab "GET" [("X-Other", [9])]
        : Input (List ToyEnc) Nat Nat Nat).accept_encoding =
      toyCollab.aeIdentity ∧
    (Input.file_at toyCollab toyFs
        (Input.from_headers toyCollab "GET" [("X-Other", [9])]
          : Input (List ToyEnc) Nat Nat Nat) toyBase).probed = [toyBase] := by
  refine ⟨by decide, ?_, ?_⟩
  · exact (c6_identity_default toyCollab ToyEnc.identity "GET" [("X-Other", [9])]
      toyFs toyBase none (Or.inr rfl) (by decide) (by decide) rfl rfl rfl).1
  · exact (c6_identity_default toyCollab ToyEnc.identity "GET" [("X-Other", [9])]
      toyFs toyBase none (Or.inr rfl) (by decide) (by decide) rfl rfl rfl).2

/-! Probe-loop characterizations for the resolver claims. -/

theorem probeLoop_all_fail (c : Collab AE R E) (fs : Fs F M)
    (self : Input AE R T Et) (path : Bytes) (l : List E)
    (hf : ∀ e ∈ l, ∃ err,
      fs.openWithMeta (path ++ c.suffix e) = Except.error err) :
    probeLoop c fs self path l =
      (l.map (fun e => path ++ c.suffix e),
       l.filterMap (logEntry c fs path),
       none) := by
  induction l with
  | nil => rfl
  | cons e t ih =>
    obtain ⟨err, herr⟩ := hf e (List.mem_cons_self e t)
    have ht : ∀ x ∈ t, ∃ er,
        fs.openWithMeta (path ++ c.suffix x) = Except.error er :=
      fun x hx => hf x (List.mem_cons_of_mem e hx)
    simp only [probeLoop, herr, ih ht, List.map_cons, List.filterMap_cons,
      logEntry]
    by_cases hk : err.kind = ErrorKind.notFound
    · simp [hk]
    · simp [hk]

theorem probeLoop_first_success (c : Collab AE R E) (fs : Fs F M)
    (self : Input AE R T Et) (path : Bytes) (pre rest : List E) (encS : E)
    (f : F) (mta : M)
    (hfail : ∀ e ∈ pre, ∃ err,
      fs.openWithMeta (path ++ c.suffix e) = Except.error err)
    (hsucc : fs.openWithMeta (path ++ c.suffix encS) = Except.ok (f, mta)) :
    probeLoop c fs self path (pre ++ encS :: rest) =
      ((pre ++ [encS]).map (fun e => path ++ c.suffix e),
       pre.filterMap (logEntry c fs path),
       some ⟨self, encS, mta, f⟩) := by
  induction pre with
  | nil => simp [probeLoop, hsucc]
  | cons e t ih =>
    obtain ⟨err, herr⟩ := hfail e (List.mem_cons_self e t)
    have ht : ∀ x ∈ t, ∃ er,
        fs.openWithMeta (path ++ c.suffix x) = Except.error er :=
      fun x hx => hfail x (List.mem_cons_of_mem e hx)
    simp only [List.cons_append, probeLoop, herr, ih ht, List.map_cons,
      List.filterMap_cons, logEntry]
    by_cases hk : err.kind = ErrorKind.notFound
    · simp [hk, ih ht]
    · simp [hk, ih ht]

/-- C3: when the encoding preference of the intent splits as pre ++ encS ::
rest where every candidate in pre fails its probe and encS opens (with
metadata) successfully, file_at returns the Output carrying encS, the open
file and its metadata, and the probed paths are exactly the suffixed paths
of pre followed by the path of encS: no candidate in rest is ever
probed. -/
theorem c3_first_success_wins (c : Collab AE R E) (fs : Fs F M)
    (self : Input AE R T Et) (path : Bytes) (pre rest : List E) (encS : E)
    (f : F) (mta : M)
    (hcands : c.aeIter self.accept_encoding = pre ++ encS :: rest)
    (hfail : ∀ e ∈ pre, ∃ err,
      fs.openWithMeta (path ++ c.suffix e) = Except.error err)
    (hsucc : fs.openWithMeta (path ++ c.suffix encS) = Except.ok (f, mta)) :
    (Input.file_at c fs self path).result = some ⟨self, encS, mta, f⟩ ∧
    (Input.file_at c fs self path).probed =
      (pre ++ [encS]).map (fun e => path ++ c.suffix e) := by
  unfold Input.file_at
  rw [hcands, probeLoop_first_success c fs self path pre rest encS f mta
    hfail hsucc]
  exact ⟨rfl, rfl⟩

/-- Evaluation of C3 at the concrete example of the spec: preference
br, gzip, identity over a filesystem where only the gzip and identity
variants exist resolves to the gzip variant and probes only the br and
gzip paths. -/
theorem c3_witness :
    toyFs.openWithMeta (toyBase ++ toyCollab.suffix ToyEnc.gzip) =
      Except.ok ([97, 46, 103, 122], 4) ∧
    (Input.file_at toyCollab toyFs toyIntent toyBase).result =
      some ⟨toyIntent, ToyEnc.gzip, 4, [97, 46, 103, 122]⟩ ∧
    (Input.file_at toyCollab toyFs toyIntent toyBase).probed =
      [[97, 46, 98, 114], [97, 46, 103, 122]] := by
  have hfail : ∀ e ∈ [ToyEnc.br], ∃ err,
      toyFs.openWithMeta (toyBase ++ toyCollab.suffix e) =
        Except.error err := by
    intro e he
    simp only [List.mem_singleton] at he
    subst he
    exact ⟨⟨ErrorKind.notFound, "nf"⟩, by decide⟩
  have h := c3_first_success_wins toyCollab toyFs toyIntent toyBase
    [ToyEnc.br] [ToyEnc.identity] ToyEnc.gzip [97, 46, 103, 122] 4 rfl hfail
    (by decide)
  exact ⟨by decide, h.1, by rw [h.2]; decide⟩

/-- C4: probe failures are non-fatal: when every candidate encoding fails
its probe, file_at still probes every candidate in order, returns an absent
result instead of raising, and its log holds exactly one line per
non-NotFound error (NotFound probes produce no log line), as captured by
logEntry. -/
theorem c4_fail_soft (c : Collab AE R E) (fs : Fs F M)
    (self : Input AE R T Et) (path : Bytes)
    (hf : ∀ e ∈ c.aeIter self.accept_encoding, ∃ err,
      fs.openWithMeta (path ++ c.suffix e) = Except.error err) :
    (Input.file_at c fs self path).result = none ∧
    (Input.file_at c fs self path).probed =
      (c.aeIter self.accept_encoding).map (fun e => path ++ c.suffix e) ∧
    (Input.file_at c fs self path).log =
      (c.aeIter self.accept_encoding).filterMap (logEntry c fs path) := by
  unfold Input.file_at
  rw [probeLoop_all_fail c fs self path (c.aeIter self.accept_encoding) hf]
  exact ⟨rfl, rfl, rfl⟩

/-- Evaluation of C4 at a concrete input: a preference of br then gzip over
a filesystem where the br probe is denied and every other probe is
NotFound yields no result, probes both paths, and logs exactly the one
permission error. -/
theorem c4_witness :
    (∀ e ∈ toyCollab.aeIter toyIntentBg.accept_encoding, ∃ err,
      toyFsDenied.openWithMeta (toyBase ++ toyCollab.suffix e) =
        Except.error err) ∧
    (Input.file_at toyCollab toyFsDenied toyIntentBg toyBase).result =
      none ∧
    (Input.file_at toyCollab toyFsDenied toyIntentBg toyBase).log =
      [([97, 46, 98, 114], ⟨ErrorKind.permissionDenied, "pd"⟩)] := by
  have hf : ∀ e ∈ toyCollab.aeIter toyIntentBg.accept_encoding, ∃ err,
      toyFsDenied.openWithMeta (toyBase ++ toyCollab.suffix e) =
        Except.error err := by
    intro e he
    simp only [toyCollab, toyIntentBg, List.mem_cons, List.not_mem_nil,
      or_false] at he
    rcases he with rfl | rfl
    · exact ⟨⟨ErrorKind.permissionDenied, "pd"⟩, by decide⟩
    · exact ⟨⟨ErrorKind.notFound, "nf"⟩, by decide⟩
  have h := c4_fail_soft toyCollab toyFsDenied toyIntentBg toyBase hf
  exact ⟨hf, h.1, by rw [h.2.2]; decide⟩

theorem probeLoop_congr (c : Collab AE R E) (fs : Fs F M) (path : Bytes)
    (s1 s2 : Input AE R T Et) (l : List E) :
    (probeLoop c fs s1 path l).1 = (probeLoop c fs s2 path l).1 ∧
    (probeLoop c fs s1 path l).2.1 = (probeLoop c fs s2 path l).2.1 ∧
    ((probeLoop c fs s1 path l).2.2).map selection =
      ((probeLoop c fs s2 path l).2.2).map selection := by
  induction l with
  | nil => exact ⟨rfl, rfl, rfl⟩
  | cons e t ih =>
    simp only [probeLoop]
    cases fs.openWithMeta (path ++ c.suffix e) with
    | ok fm => exact ⟨rfl, rfl, rfl⟩
    | error er =>
      exact ⟨by rw [ih.1], by rw [ih.2.1], ih.2.2⟩

/-- C9: the resolver reads nothing of the intent except its encoding
preference: two intents with equal accept_encoding fields, whatever their
modes (including the terminal InvalidMethod and InvalidRange outcomes) and
other fields, make file_at probe the same paths in the same order, emit
the same log lines, and select the same encoding, file and metadata. -/
theorem c9_only_encoding_matters (c : Collab AE R E) (fs : Fs F M)
    (path : Bytes) (s1 s2 : Input AE R T Et)
    (hae : s1.accept_encoding = s2.accept_encoding) :
    (Input.file_at c fs s1 path).probed =
      (Input.file_at c fs s2 path).probed ∧
    (Input.file_at c fs s1 path).log = (Input.file_at c fs s2 path).log ∧
    ((Input.file_at c fs s1 path).result).map selection =
      ((Input.file_at c fs s2 path).result).map selection := by
  unfold Input.file_at
  simp only []
  rw [hae]
  exact probeLoop_congr c fs path s1 s2 (c.aeIter s2.accept_encoding)

/-- Evaluation of C9 at a concrete input: an InvalidMethod intent with the
same encoding preference as a Get intent probes the same paths and selects
the same encoding and file, and it does probe the filesystem (the probe
list is nonempty). -/
theorem c9_witness :
    ((Input.file_at toyCollab toyFs toyIntentInvalid toyBase).result).map
        selection =
      ((Input.file_at toyCollab toyFs toyIntent toyBase).result).map
        selection ∧
    (Input.file_at toyCollab toyFs toyIntentInvalid toyBase).probed ≠ [] :=
  ⟨(c9_only_encoding_matters toyCollab toyFs toyBase toyIntentInvalid
      toyIntent rfl).2.2,
   by decide⟩

end TkHttpFile
